import Mathlib

/-!
Verification of the parsing core of the `time` repository.

Two source files are embedded:
* `src/parsing/combinator.rs` — low-level parser combinators over a cursor
  into a string;
* `time/src/format_description/parse/ast.rs` — the recursive-descent AST
  builder for format descriptions.

A Rust parser has the shape `impl Fn(&mut &'a str) -> Option<T>`: it receives
a mutable reference to the remaining input and may mutate it even when it
returns `None`.  We embed such a parser as a total function
`List Char → Option T × List Char` returning the (possibly unchanged) cursor
alongside the result, so that partial consumption on failure is observable.
The cursor is the remaining suffix of the input; bytes are modelled as
`Char` (all inputs of interest are ASCII).
-/

namespace Time

/-- The remaining input, i.e. the `&str` a Rust combinator advances. -/
abbrev Str := List Char

/-- Embedding of `impl Fn(&mut &'a str) -> Option<T>`: the result together
with the cursor state after the call. -/
def Parser (T : Type) : Type := Str → Option T × Str

/-- Embeds `lazy_mut`: run `parser` against a scratch copy of the cursor and
commit the mutation only if it succeeds. -/
def lazy_mut {T : Type} (parser : Parser T) : Parser T := fun orig_input =>
  match parser orig_input with
  | (none, _) => (none, orig_input)
  | (some value, input) => (some value, input)

/-- Embeds `string`: succeed iff the remaining text starts with `expected`,
consuming exactly that prefix (`strip_prefix` leaves the cursor unchanged on
failure). -/
def string (expected : Str) : Parser Str := fun input =>
  if expected.isPrefixOf input then
    (some expected, input.drop expected.length)
  else
    (none, input)

/-- Loop of `first_string_of`: `find_map` applies `string(expected)` to the
shared cursor for each candidate in order, stopping at the first success. -/
def first_string_of_go (expected_one_of : List Str) (input : Str) :
    Option Str × Str :=
  match expected_one_of with
  | [] => (none, input)
  | expected :: rest =>
    match string expected input with
    | (some value, s) => (some value, s)
    | (none, s) => first_string_of_go rest s

/-- Embeds `first_string_of`: parse one of the provided strings. -/
def first_string_of (expected_one_of : List Str) : Parser Str := fun input =>
  first_string_of_go expected_one_of input

/-- Embeds one call of the `FnMut` closure returned by `first_match`.  The
closure captures its options iterator mutably, so every call both reads and
advances it: the third component is the iterator state left for the next
call (`find_map` consumes elements up to and including the first match, and
all of them when no candidate matches). -/
def first_match {T : Type} (options : List (Str × T)) (input : Str) :
    Option T × Str × List (Str × T) :=
  match options with
  | [] => (none, input, [])
  | (expected, t) :: rest =>
    match string expected input with
    | (some _, s) => (some t, s, rest)
    | (none, s) => first_match rest s

/-- Embeds `flat_map`: run `parser`, then apply `map_fn` (which may itself
fail); the whole operation is wrapped in `lazy_mut`. -/
def flat_map {T U : Type} (parser : Parser T) (map_fn : T → Option U) :
    Parser U :=
  lazy_mut (fun input =>
    match parser input with
    | (some v, s) =>
      match map_fn v with
      | some u => (some u, s)
      | none => (none, s)
    | (none, s) => (none, s))

/-- The mandatory loop of `n_to_m` (`for _ in 0..n { parser(input)?; }`):
thread the cursor through `n` applications, aborting on the first failure
(the mutated failure state is irrelevant because `n_to_m` is wrapped in
`lazy_mut`). -/
def run_n {T : Type} (parser : Parser T) : Nat → Str → Option Str
  | 0, s => some s
  | k + 1, s =>
    match parser s with
    | (some _, s') => run_n parser k s'
    | (none, _) => none

/-- The optional loop of `n_to_m`
(`for _ in n..m { if parser(input).is_none() { break; } }`): on failure the
loop breaks but keeps whatever state the failing call left behind. -/
def run_opt {T : Type} (parser : Parser T) : Nat → Str → Str
  | 0, s => s
  | k + 1, s =>
    match parser s with
    | (some _, s') => run_opt parser k s'
    | (none, s') => s'

/-- Embeds `n_to_m`: consume between `n` and `m` instances of `parser`,
returning the exact consumed substring
(`&orig_input[..orig_input.len() - input.len()]`).  The source asserts
`m >= n` with a `debug_assert!` (compiled out in release builds), which a
total function cannot observe; `n` and `m` are `u8` in the source. -/
def n_to_m {T : Type} (n m : Nat) (parser : Parser T) : Parser Str :=
  lazy_mut (fun orig_input =>
    match run_n parser n orig_input with
    | none => (none, orig_input)
    | some s1 =>
      let s2 := run_opt parser (m - n) s1
      (some (orig_input.take (orig_input.length - s2.length)), s2))

/-- Embeds `exactly_n`: consume exactly `n` instances of `parser`. -/
def exactly_n {T : Type} (n : Nat) (parser : Parser T) : Parser Str :=
  n_to_m n n parser

/-- Embeds `any_digit`: consume exactly one ASCII digit. -/
def any_digit : Parser Char := fun input =>
  match input with
  | c :: rest => if c.isDigit then (some c, rest) else (none, c :: rest)
  | [] => (none, [])

/-- Embeds `ascii_char`: consume exactly one instance of the given ASCII
character. -/
def ascii_char (char : Char) : Parser Unit := fun input =>
  match input with
  | c :: rest => if c = char then (some (), rest) else (none, c :: rest)
  | [] => (none, [])

/-- A target type of the `Integer` marker trait (`u8`, …, `u128`, `usize`
and their `NonZero` variants): its maximal value and whether zero is
rejected. -/
structure IntTy where
  maxVal : Nat
  rejectZero : Bool

/-- Numeric value of a run of ASCII digits. -/
def digitsToNat (s : Str) : Nat :=
  s.foldl (fun acc c => 10 * acc + (c.toNat - '0'.toNat)) 0

/-- Embeds `str::parse::<T>().ok()` for an `Integer` type on the strings
produced by `n_to_m(_, _, any_digit)` (runs of ASCII digits): the empty
string and out-of-range values fail, `NonZero` types additionally reject
zero. -/
def parseIntTy (ty : IntTy) (s : Str) : Option Nat :=
  if s = [] then none
  else if s.all (fun c => c.isDigit) then
    let v := digitsToNat s
    if v ≤ ty.maxVal then
      if ty.rejectZero = true ∧ v = 0 then none else some v
    else none
  else none

/-- Embeds `n_to_m_digits`: consume between `n` and `m` digits and convert
the consumed run to an integer of type `ty`. -/
def n_to_m_digits (ty : IntTy) (n m : Nat) : Parser Nat :=
  flat_map (n_to_m n m any_digit) (fun value => parseIntTy ty value)

/-- Embeds `exactly_n_digits`. -/
def exactly_n_digits (ty : IntTy) (n : Nat) : Parser Nat :=
  n_to_m_digits ty n n

/-- Embeds `Padding` from `format_description/modifier.rs`. -/
inductive Padding where
  | space
  | zero
  | none
deriving DecidableEq

/-- The `pad_width` computation of `exactly_n_digits_padded`:
`n_to_m(0, n, ascii_char(c))(input).map_or(0, |s| s.len() as u8)`. -/
def pad_width (n : Nat) (c : Char) (input : Str) : Nat :=
  match (n_to_m 0 n (ascii_char c) input).1 with
  | some s => s.length
  | none => 0

/-- Embeds `exactly_n_digits_padded`: under `None` parse `1..=n` digits;
under `Space` (resp. `Zero`) first consume `0..n` leading spaces (resp.
`'0'` characters) on the shared cursor, then require exactly
`n - pad_width` digits. -/
def exactly_n_digits_padded (ty : IntTy) (n : Nat) (padding : Padding) :
    Parser Nat :=
  lazy_mut (fun input =>
    if padding = Padding.none then
      n_to_m_digits ty 1 n input
    else if padding = Padding.space then
      let after_pad := (n_to_m 0 n (ascii_char ' ') input).2
      exactly_n_digits ty (n - pad_width n ' ' input) after_pad
    else
      let after_pad := (n_to_m 0 n (ascii_char '0') input).2
      exactly_n_digits ty (n - pad_width n '0' input) after_pad)

/-!
The AST builder of `time/src/format_description/parse/ast.rs`.

The builder consumes the lexer's token stream; a `Peekable` iterator is
embedded as a `List Token` (`peek` inspects the head, `next` removes it).
Byte slices `&[u8]` are modelled as `List Char` (ASCII).  The `Location`,
`Span` and `Spanned` types together with the lexer live in files of this
repository that are not part of the two given sources, so they are modelled
from the spec below.
-/

/-- Modelled from the spec: `Location` (defined in
`format_description/parse/mod.rs`, not in the given sources) is an absolute
position in the source text: one-indexed line and column plus the
zero-based byte offset. -/
structure Location where
  line : Nat
  column : Nat
  byte : Nat
deriving DecidableEq

/-- Modelled from the spec: offsetting a `Location` by `n` bytes on the same
line. -/
def Location.offset (loc : Location) (n : Nat) : Location :=
  ⟨loc.line, loc.column + n, loc.byte + n⟩

/-- Modelled from the spec: `Span` (not in the given sources) is the ordered
pair of the locations of the first and the last byte of a source range. -/
structure Span where
  start : Location
  endLoc : Location
deriving DecidableEq

/-- Modelled from the spec: shrinking a span to just its start. -/
def Span.shrink_to_start (s : Span) : Span := ⟨s.start, s.start⟩

/-- Modelled from the spec: shrinking a span to just its end. -/
def Span.shrink_to_end (s : Span) : Span := ⟨s.endLoc, s.endLoc⟩

/-- Modelled from the spec: the prefix of a span strictly before position
`pos` (used for the key when splitting a `key:value` modifier at the colon
at index `pos`). -/
def Span.shrink_to_before (s : Span) (pos : Nat) : Span :=
  ⟨s.start, s.start.offset (pos - 1)⟩

/-- Modelled from the spec: the suffix of a span strictly after position
`pos` (used for the value when splitting a `key:value` modifier at the
colon at index `pos`). -/
def Span.shrink_to_after (s : Span) (pos : Nat) : Span :=
  ⟨s.start.offset (pos + 1), s.endLoc⟩

/-- A value paired with the span of source bytes it was derived from. -/
structure Spanned (T : Type) where
  value : T
  span : Span
deriving DecidableEq

/-- Embeds `lexer::BracketKind`. -/
inductive BracketKind where
  | opening
  | closing
deriving DecidableEq

/-- Embeds `lexer::ComponentKind`. -/
inductive ComponentKind where
  | whitespace
  | notWhitespace
deriving DecidableEq

/-- Embeds `lexer::Token`. -/
inductive Token where
  | literal (value : Spanned Str)
  | bracket (kind : BracketKind) (location : Location)
  | componentPart (kind : ComponentKind) (value : Spanned Str)
deriving DecidableEq

/-- The public error surface (`InvalidFormatDescription`).  The private
`_inner` diagnostic of `parse::Error` (a display-only message with span) is
not modelled; every claim concerns the public kind, index and offending
text.  `internalError` stands for the `unreachable!` panics of the source
(and for exhausted recursion fuel, which the wrappers below always supply
in sufficient quantity). -/
inductive ParseError where
  | missingComponentName (index : Nat)
  | unclosedOpeningBracket (index : Nat)
  | invalidModifier (value : Str) (index : Nat)
  | expected (what : String) (index : Nat)
  | internalError
deriving DecidableEq

/-- Embeds `Modifier`: a `key:value` pair split from one non-whitespace
component part. -/
structure Modifier where
  leadingWhitespace : Spanned Str
  key : Spanned Str
  colon : Location
  value : Spanned Str
deriving DecidableEq

mutual
/-- Embeds `Item`: one node of the parsed format description. -/
inductive Item where
  | literal (value : Spanned Str)
  | escapedBracket (first second : Location)
  | component (openingBracket : Location)
      (leadingWhitespace : Option (Spanned Str)) (name : Spanned Str)
      (modifiers : List Modifier) (trailingWhitespace : Option (Spanned Str))
      (closingBracket : Location)
  | optional (openingBracket : Location)
      (leadingWhitespace : Option (Spanned Str)) (optionalKw : Spanned Str)
      (whitespace : Spanned Str) (nested : NestedFormatDescription)
      (closingBracket : Location)

/-- Embeds `NestedFormatDescription`. -/
inductive NestedFormatDescription where
  | mk (openingBracket : Location) (items : List Item)
      (closingBracket : Location)
      (trailingWhitespace : Option (Spanned Str))
end

/-- The keyword introducing an optional group (`b"optional"`). -/
def optionalKeyword : Str := ['o', 'p', 't', 'i', 'o', 'n', 'a', 'l']

/-- Embeds `value.iter().position(|&b| b == b':')`: index of the first colon
of a modifier token, if any. -/
def colonIndex : Str → Option Nat
  | [] => none
  | c :: rest =>
    if c = ':' then some 0 else (colonIndex rest).map (fun i => i + 1)

/-- Embeds the modifier loop of `parse_component`: consume zero or more
`(whitespace, modifier)` pairs, returning the modifiers gathered so far, the
trailing whitespace retained when probing for one more modifier fails, and
the unconsumed tokens.  An opening bracket where a modifier is expected, a
modifier without a colon and an empty key or value are the source's three
`InvalidModifier` errors. -/
def parse_modifiers (tokens : List Token) (modifiers : List Modifier) :
    Except ParseError (List Modifier × Option (Spanned Str) × List Token) :=
  match tokens with
  | Token.componentPart ComponentKind.whitespace whitespace :: rest =>
    match rest with
    | Token.bracket BracketKind.opening location :: _ =>
      Except.error (ParseError.invalidModifier ['['] location.byte)
    | Token.componentPart ComponentKind.notWhitespace
        ⟨value, span⟩ :: rest2 =>
      match colonIndex value with
      | none =>
        Except.error (ParseError.invalidModifier value span.start.byte)
      | some colon_index =>
        let key := value.take colon_index
        let val := value.drop (colon_index + 1)
        if key = [] then
          Except.error (ParseError.invalidModifier [] span.start.byte)
        else if val = [] then
          Except.error
            (ParseError.invalidModifier [] span.shrink_to_end.start.byte)
        else
          parse_modifiers rest2 (modifiers ++
            [⟨whitespace, ⟨key, span.shrink_to_before colon_index⟩,
              span.start.offset colon_index,
              ⟨val, span.shrink_to_after colon_index⟩⟩])
    | _ => Except.ok (modifiers, some whitespace, rest)
  | _ => Except.ok (modifiers, none, tokens)

mutual
/-- Embeds `parse_component` (the opening bracket has already been
consumed): optionally take one leading-whitespace token, then hand off to
`parse_component_named`.  The source computes `leading_whitespace` inline;
it is split off here so that the continuation is written once.  `fuel`
bounds the recursion depth (each call consumes one unit); the wrapper below
always supplies enough for it never to run out. -/
def parse_component (fuel : Nat) (openingBracket : Location)
    (tokens : List Token) : Except ParseError (Item × List Token) :=
  match fuel with
  | 0 => Except.error ParseError.internalError
  | f + 1 =>
    match tokens with
    | Token.componentPart ComponentKind.whitespace value :: rest =>
      parse_component_named f openingBracket (some value) rest
    | _ => parse_component_named f openingBracket none tokens

/-- Continuation of `parse_component` after the optional leading
whitespace: require the component name, then either the `optional` path or
the modifier loop, and finally the closing bracket. -/
def parse_component_named (fuel : Nat) (openingBracket : Location)
    (leadingWhitespace : Option (Spanned Str)) (tokens : List Token) :
    Except ParseError (Item × List Token) :=
  match fuel with
  | 0 => Except.error ParseError.internalError
  | f + 1 =>
    match tokens with
    | Token.componentPart ComponentKind.notWhitespace name :: rest =>
      if name.value = optionalKeyword then
        match rest with
        | Token.componentPart ComponentKind.whitespace whitespace :: rest2 =>
          match parse_nested f whitespace.span.endLoc rest2 with
          | Except.error e => Except.error e
          | Except.ok (nested, rest3) =>
            match rest3 with
            | Token.bracket BracketKind.closing location :: rest4 =>
              Except.ok (Item.optional openingBracket leadingWhitespace
                name whitespace nested location, rest4)
            | _ =>
              Except.error
                (ParseError.unclosedOpeningBracket openingBracket.byte)
        | _ =>
          Except.error (ParseError.expected "whitespace after `optional`"
            name.span.endLoc.byte)
      else
        match parse_modifiers rest [] with
        | Except.error e => Except.error e
        | Except.ok (modifiers, trailingWhitespace, rest2) =>
          match rest2 with
          | Token.bracket BracketKind.closing location :: rest3 =>
            Except.ok (Item.component openingBracket leadingWhitespace name
              modifiers trailingWhitespace location, rest3)
          | _ =>
            Except.error
              (ParseError.unclosedOpeningBracket openingBracket.byte)
    | _ =>
      let span :=
        match leadingWhitespace with
        | some w => w.span
        | none => (⟨openingBracket, openingBracket⟩ : Span)
      Except.error (ParseError.missingComponentName span.start.byte)

/-- Embeds `parse_nested`: require an opening bracket, parse the nested
items (`parse_inner::<_, true>` collected), require the closing bracket
(its absence is anchored at this nested group's own opening bracket), and
capture one trailing whitespace token. -/
def parse_nested (fuel : Nat) (lastLocation : Location)
    (tokens : List Token) :
    Except ParseError (NestedFormatDescription × List Token) :=
  match fuel with
  | 0 => Except.error ParseError.internalError
  | f + 1 =>
    match tokens with
    | Token.bracket BracketKind.opening location :: rest =>
      match parse_nested_items f rest [] with
      | Except.error e => Except.error e
      | Except.ok (items, rest2) =>
        match rest2 with
        | Token.bracket BracketKind.closing closingLocation :: rest3 =>
          match rest3 with
          | Token.componentPart ComponentKind.whitespace value :: rest4 =>
            Except.ok (NestedFormatDescription.mk location items
              closingLocation (some value), rest4)
          | _ =>
            Except.ok (NestedFormatDescription.mk location items
              closingLocation none, rest3)
        | _ =>
          Except.error (ParseError.unclosedOpeningBracket location.byte)
    | _ =>
      Except.error (ParseError.expected "opening bracket" lastLocation.byte)

/-- Embeds the `NESTED = true` instance of `parse_inner`, collected into a
list: stop (without consuming) at a closing bracket or at the end of the
tokens; a literal token is the source's `unreachable!`; component parts
become literal items (whitespace is significant in nested components). -/
def parse_nested_items (fuel : Nat) (tokens : List Token)
    (items : List Item) : Except ParseError (List Item × List Token) :=
  match fuel with
  | 0 => Except.error ParseError.internalError
  | f + 1 =>
    match tokens with
    | [] => Except.ok (items, [])
    | Token.bracket BracketKind.closing location :: rest =>
      Except.ok (items, Token.bracket BracketKind.closing location :: rest)
    | Token.literal _ :: _ => Except.error ParseError.internalError
    | Token.bracket BracketKind.opening location :: rest =>
      match rest with
      | Token.bracket BracketKind.opening second :: rest2 =>
        parse_nested_items f rest2
          (items ++ [Item.escapedBracket location second])
      | _ =>
        match parse_component f location rest with
        | Except.error e => Except.error e
        | Except.ok (item, rest2) =>
          parse_nested_items f rest2 (items ++ [item])
    | Token.componentPart _ value :: rest =>
      parse_nested_items f rest (items ++ [Item.literal value])
end

/-- Embeds the `NESTED = false` instance of `parse_inner`, collected into a
list (the public `parse` entry point followed by `collect`): literal tokens
become literal items, two consecutive opening brackets one escaped bracket,
an opening bracket otherwise starts `parse_component`; a closing bracket or
a component part at the top level is the source's `unreachable!`. -/
def parse_items (fuel : Nat) (tokens : List Token) :
    Except ParseError (List Item) :=
  match fuel with
  | 0 => Except.error ParseError.internalError
  | f + 1 =>
    match tokens with
    | [] => Except.ok []
    | Token.literal value :: rest =>
      match parse_items f rest with
      | Except.error e => Except.error e
      | Except.ok items => Except.ok (Item.literal value :: items)
    | Token.bracket BracketKind.opening location ::
        Token.bracket BracketKind.opening second :: rest =>
      match parse_items f rest with
      | Except.error e => Except.error e
      | Except.ok items =>
        Except.ok (Item.escapedBracket location second :: items)
    | Token.bracket BracketKind.opening location :: rest =>
      match parse_component f location rest with
      | Except.error e => Except.error e
      | Except.ok (item, rest2) =>
        match parse_items f rest2 with
        | Except.error e => Except.error e
        | Except.ok items => Except.ok (item :: items)
    | Token.bracket BracketKind.closing _ :: _ =>
      Except.error ParseError.internalError
    | Token.componentPart _ _ :: _ => Except.error ParseError.internalError

/-- Parse a complete token stream into an AST, with enough fuel for the
recursion never to be cut short (every unit of nesting or iteration
consumes at least one token, and each layer at most four units of fuel). -/
def parse_ast (tokens : List Token) : Except ParseError (List Item) :=
  parse_items (4 * tokens.length + 4) tokens

/-!
The lexer.  Its implementation (`format_description/parse/lexer.rs`) is not
among the given sources, so it is modelled from the spec: scanning is
strictly left to right, every byte belongs to exactly one token, free text
outside any bracket becomes a `Literal` token, brackets become `Bracket`
tokens (two consecutive opening brackets are both emitted, to be folded
into an escaped bracket by the AST builder), and text inside brackets is
pre-split at whitespace boundaries into `ComponentPart` tokens.
-/

/-- Modelled from the spec: advance a location past one character. -/
def advanceLoc (loc : Location) (c : Char) : Location :=
  if c = '\n' then ⟨loc.line + 1, 1, loc.byte + 1⟩
  else ⟨loc.line, loc.column + 1, loc.byte + 1⟩

/-- Modelled from the spec: the location reached after consuming `cs`. -/
def locationAfter (loc : Location) (cs : Str) : Location :=
  cs.foldl advanceLoc loc

/-- Modelled from the spec: the span of the nonempty run `cs` starting at
`loc` (start of its first and location of its last character). -/
def runSpan (loc : Location) (cs : Str) : Span :=
  ⟨loc, locationAfter loc cs.dropLast⟩

/-- Modelled from the spec: a character that separates component parts. -/
def isPartBoundary (c : Char) : Bool :=
  c.isWhitespace || c = '[' || c = ']'

/-- Dropping a prefix never lengthens a list (termination measure of the
lexer). -/
theorem length_dropWhile_le (p : Char → Bool) (l : List Char) :
    (l.dropWhile p).length ≤ l.length := by
  induction l with
  | nil => simp [List.dropWhile]
  | cons c cs ih =>
    simp only [List.dropWhile]
    cases h : p c
    · simp
    · simp only [List.length_cons]
      exact Nat.le_succ_of_le ih

/-- Modelled from the spec: the lexer's scanning loop.  `depth` counts the
currently open brackets: at depth zero everything up to the next opening
bracket is one literal token; inside brackets, whitespace runs and
non-whitespace runs become separate component parts.  `fuel` makes the
recursion structural; every step consumes at least one character, and the
wrapper below supplies one unit per character. -/
def lexer (fuel depth : Nat) (loc : Location) (input : Str) : List Token :=
  match fuel with
  | 0 => []
  | f + 1 =>
    match input with
    | [] => []
    | '[' :: '[' :: rest =>
      Token.bracket BracketKind.opening loc ::
        Token.bracket BracketKind.opening (advanceLoc loc '[') ::
          lexer f depth (advanceLoc (advanceLoc loc '[') '[') rest
    | '[' :: rest =>
      Token.bracket BracketKind.opening loc ::
        lexer f (depth + 1) (advanceLoc loc '[') rest
    | c :: rest =>
      if depth = 0 then
        let run := c :: rest.takeWhile (fun x => x ≠ '[')
        Token.literal ⟨run, runSpan loc run⟩ ::
          lexer f depth (locationAfter loc run)
            (rest.dropWhile (fun x => x ≠ '['))
      else if c = ']' then
        Token.bracket BracketKind.closing loc ::
          lexer f (depth - 1) (advanceLoc loc c) rest
      else if c.isWhitespace then
        let run := c :: rest.takeWhile (fun x => x.isWhitespace)
        Token.componentPart ComponentKind.whitespace
            ⟨run, runSpan loc run⟩ ::
          lexer f depth (locationAfter loc run)
            (rest.dropWhile (fun x => x.isWhitespace))
      else
        let run := c :: rest.takeWhile (fun x => !isPartBoundary x)
        Token.componentPart ComponentKind.notWhitespace
            ⟨run, runSpan loc run⟩ ::
          lexer f depth (locationAfter loc run)
            (rest.dropWhile (fun x => !isPartBoundary x))

/-- Modelled from the spec: tokenize a format description string. -/
def lex (input : Str) : List Token :=
  lexer (input.length + 1) 0 ⟨1, 1, 0⟩ input

/-!  Basic lemmas about the combinators. -/

/-- `lazy_mut` restores the original cursor whenever the wrapped parser
fails. -/
theorem lazy_mut_atomic {T : Type} (parser : Parser T) (input : Str)
    (h : (lazy_mut parser input).1 = none) :
    (lazy_mut parser input).2 = input := by
  unfold lazy_mut at *
  cases hp : parser input with
  | mk r s => cases r <;> simp [hp] at h ⊢

/-- `string` leaves the cursor unchanged on failure. -/
theorem string_atomic (expected input : Str)
    (h : (string expected input).1 = none) :
    (string expected input).2 = input := by
  unfold string at *
  by_cases hp : expected.isPrefixOf input <;> simp [hp] at h ⊢

/-- On success, `string` leaves a suffix of its input as the cursor. -/
theorem string_suffix (expected input : Str) (v s : Str)
    (h : string expected input = (some v, s)) : s <:+ input := by
  unfold string at h
  by_cases hp : expected.isPrefixOf input <;> simp [hp] at h
  · rcases h with ⟨-, rfl⟩
    exact List.drop_suffix _ _

/-- The `first_string_of` loop leaves the cursor unchanged on failure. -/
theorem first_string_of_go_atomic (cands : List Str) (input : Str)
    (h : (first_string_of_go cands input).1 = none) :
    (first_string_of_go cands input).2 = input := by
  induction cands generalizing input with
  | nil => simp [first_string_of_go]
  | cons c rest ih =>
    simp only [first_string_of_go] at h ⊢
    cases hs : string c input with
    | mk r s =>
      cases r with
      | some v => simp [hs] at h ⊢
      | none =>
        have hse : s = input := by
          have := string_atomic c input
          rw [hs] at this
          exact this rfl
        subst hse
        simp only [hs] at h ⊢
        exact ih _ h

/-- `first_match` leaves the cursor unchanged on failure (the iterator it
captured is a different matter). -/
theorem first_match_atomic {T : Type} (options : List (Str × T))
    (input : Str) (h : (first_match options input).1 = none) :
    (first_match options input).2.1 = input := by
  induction options generalizing input with
  | nil => simp [first_match]
  | cons o rest ih =>
    obtain ⟨expected, t⟩ := o
    simp only [first_match] at h ⊢
    cases hs : string expected input with
    | mk r s =>
      cases r with
      | some v => simp [hs] at h ⊢
      | none =>
        have hse : s = input := by
          have := string_atomic expected input
          rw [hs] at this
          exact this rfl
        subst hse
        simp only [hs] at h ⊢
        exact ih _ h

/-- `any_digit` leaves the cursor unchanged on failure. -/
theorem any_digit_atomic (input : Str)
    (h : (any_digit input).1 = none) : (any_digit input).2 = input := by
  unfold any_digit at *
  cases input with
  | nil => rfl
  | cons c rest => by_cases hc : c.isDigit <;> simp [hc] at h ⊢

/-- `ascii_char` leaves the cursor unchanged on failure. -/
theorem ascii_char_atomic (char : Char) (input : Str)
    (h : ((ascii_char char) input).1 = none) :
    ((ascii_char char) input).2 = input := by
  unfold ascii_char at *
  cases input with
  | nil => rfl
  | cons c rest => by_cases hc : c = char <;> simp [hc] at h ⊢

/-- On success, `ascii_char` consumes exactly its one character. -/
theorem ascii_char_suffix (char : Char) (input : Str) (t : Unit) (s : Str)
    (h : ascii_char char input = (some t, s)) : s <:+ input := by
  unfold ascii_char at h
  cases input with
  | nil => simp at h
  | cons c rest =>
    by_cases hc : c = char <;> simp [hc] at h
    subst h
    exact List.suffix_cons c rest

/-!  The two loops of `n_to_m`: chains of successful applications. -/

/-- Splitting the mandatory loop: `a + b` applications are `a` applications
followed by `b` more from the reached state. -/
theorem run_n_add {T : Type} (parser : Parser T) (a b : Nat) (s : Str) :
    run_n parser (a + b) s = (run_n parser a s).bind (run_n parser b) := by
  induction a generalizing s with
  | zero => simp [run_n]
  | succ a ih =>
    have hab : a + 1 + b = (a + b) + 1 := by omega
    rw [hab]
    simp only [run_n]
    cases hp : parser s with
    | mk r s' =>
      cases r with
      | some t => simpa using ih s'
      | none => simp

/-- If the chain of successes stops after `k` steps, any longer mandatory
loop fails. -/
theorem run_n_none_of_lt {T : Type} (parser : Parser T) (k n : Nat)
    (input sk : Str) (hrun : run_n parser k input = some sk)
    (hfail : (parser sk).1 = none) (hkn : k < n) :
    run_n parser n input = none := by
  have hsplit : n = k + (n - k) := by omega
  rw [hsplit, run_n_add, hrun]
  have hnk : n - k = (n - k - 1) + 1 := by omega
  rw [hnk]
  show run_n parser ((n - k - 1) + 1) sk = none
  simp only [run_n]
  cases hp : parser sk with
  | mk r s' =>
    cases r with
    | some t => rw [hp] at hfail; simp at hfail
    | none => rfl

/-- A parser that only ever consumes leaves, after any number of successful
applications, a suffix of the original input. -/
theorem run_n_suffix {T : Type} (parser : Parser T)
    (hsuf : ∀ s t s', parser s = (some t, s') → s' <:+ s) (k : Nat)
    (input s' : Str) (hrun : run_n parser k input = some s') :
    s' <:+ input := by
  induction k generalizing input with
  | zero =>
    simp only [run_n, Option.some.injEq] at hrun
    subst hrun
    exact List.suffix_refl input
  | succ k ih =>
    simp only [run_n] at hrun
    cases hp : parser input with
    | mk r s1 =>
      cases r with
      | some t =>
        rw [hp] at hrun
        exact (ih s1 hrun).trans (hsuf input t s1 hp)
      | none => rw [hp] at hrun; simp at hrun

/-- While successes remain, the optional loop follows the same chain as the
mandatory loop. -/
theorem run_opt_of_le {T : Type} (parser : Parser T) (j k : Nat)
    (s sk : Str) (hjk : j ≤ k) (hrun : run_n parser k s = some sk) :
    ∃ sj, run_n parser j s = some sj ∧ run_opt parser j s = sj := by
  induction j generalizing k s with
  | zero => exact ⟨s, rfl, rfl⟩
  | succ j ih =>
    obtain ⟨k', rfl⟩ : ∃ k', k = k' + 1 := ⟨k - 1, by omega⟩
    simp only [run_n] at hrun
    cases hp : parser s with
    | mk r s1 =>
      cases r with
      | some t =>
        rw [hp] at hrun
        obtain ⟨sj, h1, h2⟩ := ih k' s1 (by omega) hrun
        refine ⟨sj, ?_, ?_⟩
        · simp only [run_n, hp]
          exact h1
        · simp only [run_opt, hp]
          exact h2
      | none => rw [hp] at hrun; simp at hrun

/-- Once the chain of successes is exhausted at `sk` (where the atomic
parser fails), the optional loop stops there no matter how many further
iterations it is allowed. -/
theorem run_opt_of_ge {T : Type} (parser : Parser T)
    (hatom : ∀ s, (parser s).1 = none → (parser s).2 = s) (k j : Nat)
    (s sk : Str) (hrun : run_n parser k s = some sk)
    (hfail : (parser sk).1 = none) (hkj : k ≤ j) :
    run_opt parser j s = sk := by
  induction k generalizing s j with
  | zero =>
    simp only [run_n, Option.some.injEq] at hrun
    subst hrun
    cases j with
    | zero => rfl
    | succ j =>
      simp only [run_opt]
      cases hp : parser s with
      | mk r s' =>
        cases r with
        | some t => rw [hp] at hfail; simp at hfail
        | none =>
          have := hatom s
          rw [hp] at this
          exact this rfl
  | succ k ih =>
    simp only [run_n] at hrun
    cases hp : parser s with
    | mk r s1 =>
      cases r with
      | some t =>
        rw [hp] at hrun
        obtain ⟨j', rfl⟩ : ∃ j', j = j' + 1 := ⟨j - 1, by omega⟩
        simp only [run_opt, hp]
        exact ih _ _ hrun (by omega)
      | none => rw [hp] at hrun; simp at hrun

/-- A suffix is recovered by taking the complementary prefix. -/
theorem eq_take_append_of_suffix (input rest : Str) (h : rest <:+ input) :
    input = input.take (input.length - rest.length) ++ rest := by
  obtain ⟨t, rfl⟩ := h
  have hl : (t ++ rest).length - rest.length = t.length := by
    simp [List.length_append]
  rw [hl, List.take_left]

/-- Evaluating `n_to_m` when the mandatory loop succeeds. -/
theorem n_to_m_eval_some {T : Type} (n m : Nat) (parser : Parser T)
    (input s1 : Str) (h : run_n parser n input = some s1) :
    n_to_m n m parser input =
      (some (input.take
        (input.length - (run_opt parser (m - n) s1).length)),
       run_opt parser (m - n) s1) := by
  unfold n_to_m lazy_mut
  simp [h]

/-- Evaluating `n_to_m` when the mandatory loop fails. -/
theorem n_to_m_eval_none {T : Type} (n m : Nat) (parser : Parser T)
    (input : Str) (h : run_n parser n input = none) :
    n_to_m n m parser input = (none, input) := by
  unfold n_to_m lazy_mut
  simp [h]

/-- Evaluating `flat_map` when both steps succeed. -/
theorem flat_map_eval_some {T U : Type} (parser : Parser T)
    (map_fn : T → Option U) (input s : Str) (v : T) (u : U)
    (hp : parser input = (some v, s)) (hm : map_fn v = some u) :
    flat_map parser map_fn input = (some u, s) := by
  unfold flat_map lazy_mut
  simp [hp, hm]

/-- Evaluating `flat_map` when the parser fails. -/
theorem flat_map_eval_fail {T U : Type} (parser : Parser T)
    (map_fn : T → Option U) (input : Str)
    (hp : (parser input).1 = none) :
    flat_map parser map_fn input = (none, input) := by
  unfold flat_map lazy_mut
  cases hpe : parser input with
  | mk r s =>
    cases r with
    | some v => rw [hpe] at hp; simp at hp
    | none => simp [hpe]

/-- Evaluating `flat_map` when the parser succeeds but the map fails. -/
theorem flat_map_eval_map_fail {T U : Type} (parser : Parser T)
    (map_fn : T → Option U) (input s : Str) (v : T)
    (hp : parser input = (some v, s)) (hm : map_fn v = none) :
    flat_map parser map_fn input = (none, input) := by
  unfold flat_map lazy_mut
  simp [hp, hm]

/-!  Lemmas about padded digit parsing. -/

/-- The pad character of a padding mode (`None` has no pad character). -/
def padChar : Padding → Option Char
  | Padding.space => some ' '
  | Padding.zero => some '0'
  | Padding.none => Option.none

/-- `ascii_char` on a matching head consumes it. -/
theorem ascii_char_cons_pos (c x : Char) (rest : Str) (hx : x = c) :
    ascii_char c (x :: rest) = (some (), rest) := by
  unfold ascii_char
  simp [hx]

/-- `ascii_char` on a non-matching head fails in place. -/
theorem ascii_char_cons_neg (c x : Char) (rest : Str) (hx : ¬ x = c) :
    ascii_char c (x :: rest) = (none, x :: rest) := by
  unfold ascii_char
  simp [hx]

/-- Each iteration of the optional loop of a one-character parser consumes
at most one character. -/
theorem run_opt_ascii_length (c : Char) (k : Nat) (s : Str) :
    s.length ≤ (run_opt (ascii_char c) k s).length + k := by
  induction k generalizing s with
  | zero => simp [run_opt]
  | succ k ih =>
    cases s with
    | nil => simp [run_opt, ascii_char]
    | cons x rest =>
      by_cases hx : x = c
      · rw [show run_opt (ascii_char c) (k + 1) (x :: rest) =
            run_opt (ascii_char c) k rest by
          simp only [run_opt, ascii_char_cons_pos c x rest hx]]
        have := ih rest
        simp only [List.length_cons]
        omega
      · rw [show run_opt (ascii_char c) (k + 1) (x :: rest) = x :: rest by
          simp only [run_opt, ascii_char_cons_neg c x rest hx]]
        omega

/-- When the first `k` characters all equal `c`, the optional loop of
`ascii_char c` bounded by `k` consumes exactly those `k` characters. -/
theorem run_opt_all_pad (c : Char) (k : Nat) (s : Str)
    (hall : (s.take k).all (fun x => x = c) = true) (hlen : k ≤ s.length) :
    run_opt (ascii_char c) k s = s.drop k := by
  induction k generalizing s with
  | zero => simp [run_opt]
  | succ k ih =>
    cases s with
    | nil => simp at hlen
    | cons x rest =>
      simp only [List.take_succ_cons, List.all_cons, Bool.and_eq_true,
        decide_eq_true_eq] at hall
      obtain ⟨hx, hrest⟩ := hall
      rw [show run_opt (ascii_char c) (k + 1) (x :: rest) =
          run_opt (ascii_char c) k rest by
        simp only [run_opt, ascii_char_cons_pos c x rest hx],
        List.drop_succ_cons]
      exact ih rest hrest (by simpa using hlen)

/-- The pad run of `exactly_n_digits_padded` on an input whose first `n`
characters are all the pad character: everything up to the bound is
consumed. -/
theorem pad_n_to_m_eval (c : Char) (n : Nat) (input : Str)
    (hall : (input.take n).all (fun x => x = c) = true)
    (hlen : n ≤ input.length) :
    n_to_m 0 n (ascii_char c) input =
      (some (input.take n), input.drop n) := by
  have h0 : run_n (ascii_char c) 0 input = some input := rfl
  rw [n_to_m_eval_some 0 n (ascii_char c) input input h0]
  rw [Nat.sub_zero, run_opt_all_pad c n input hall hlen]
  rw [List.length_drop]
  have harith : input.length - (input.length - n) = n := by omega
  rw [harith]

/-- Requiring exactly zero digits parses the empty run, whose integer
conversion fails: the combinator reports no match. -/
theorem exactly_n_digits_zero (ty : IntTy) (s : Str) :
    exactly_n_digits ty 0 s = (none, s) := by
  have hrun : n_to_m 0 0 any_digit s = (some [], s) := by
    have h0 : run_n any_digit 0 s = some s := rfl
    rw [n_to_m_eval_some 0 0 any_digit s s h0]
    simp [run_opt]
  exact flat_map_eval_map_fail _ _ s s [] hrun rfl

/-- Conversion of a nonempty in-range digit run succeeds. -/
theorem parseIntTy_some (ty : IntTy) (s : Str) (hne : s ≠ [])
    (hd : s.all (fun c => c.isDigit) = true)
    (hle : digitsToNat s ≤ ty.maxVal)
    (hnz : digitsToNat s ≠ 0 ∨ ty.rejectZero = false) :
    parseIntTy ty s = some (digitsToNat s) := by
  unfold parseIntTy
  rw [if_neg hne, if_pos hd, if_pos hle, if_neg]
  rintro ⟨h1, h2⟩
  cases hnz with
  | inl h => exact h h2
  | inr h => rw [h] at h1; simp at h1

/-- Evaluation of the `Padding::None` branch of
`exactly_n_digits_padded`. -/
theorem padded_none_eq (ty : IntTy) (n : Nat) (input : Str) :
    exactly_n_digits_padded ty n Padding.none input =
      match n_to_m_digits ty 1 n input with
      | (some v, s) => (some v, s)
      | (none, _) => (none, input) := by
  unfold exactly_n_digits_padded lazy_mut
  beta_reduce
  rw [if_pos rfl]
  cases n_to_m_digits ty 1 n input with
  | mk r s => cases r <;> rfl

/-- Evaluation of the `Padding::Space` branch of
`exactly_n_digits_padded`. -/
theorem padded_space_eq (ty : IntTy) (n : Nat) (input : Str) :
    exactly_n_digits_padded ty n Padding.space input =
      match exactly_n_digits ty (n - pad_width n ' ' input)
          ((n_to_m 0 n (ascii_char ' ') input).2) with
      | (some v, s) => (some v, s)
      | (none, _) => (none, input) := by
  unfold exactly_n_digits_padded lazy_mut
  beta_reduce
  rw [if_neg (by simp : ¬ (Padding.space = Padding.none)), if_pos rfl]
  cases exactly_n_digits ty (n - pad_width n ' ' input)
      ((n_to_m 0 n (ascii_char ' ') input).2) with
  | mk r s => cases r <;> rfl

/-- Evaluation of the `Padding::Zero` branch of
`exactly_n_digits_padded`. -/
theorem padded_zero_eq (ty : IntTy) (n : Nat) (input : Str) :
    exactly_n_digits_padded ty n Padding.zero input =
      match exactly_n_digits ty (n - pad_width n '0' input)
          ((n_to_m 0 n (ascii_char '0') input).2) with
      | (some v, s) => (some v, s)
      | (none, _) => (none, input) := by
  unfold exactly_n_digits_padded lazy_mut
  beta_reduce
  rw [if_neg (by simp : ¬ (Padding.zero = Padding.none)),
    if_neg (by simp : ¬ (Padding.zero = Padding.space))]
  cases exactly_n_digits ty (n - pad_width n '0' input)
      ((n_to_m 0 n (ascii_char '0') input).2) with
  | mk r s => cases r <;> rfl

/-- On an input whose first `n` characters are all the pad character, the
pad run swallows all `n`, zero digits remain required, and the empty digit
run fails integer conversion: the combinator rejects, leaving the cursor
unchanged. -/
theorem padded_all_pad_reject (ty : IntTy) (n : Nat) (padding : Padding)
    (c : Char) (input : Str) (hc : padChar padding = some c)
    (hlen : n ≤ input.length)
    (hall : (input.take n).all (fun x => x = c) = true) :
    exactly_n_digits_padded ty n padding input = (none, input) := by
  have heval := pad_n_to_m_eval c n input hall hlen
  have hpw : pad_width n c input = n := by
    unfold pad_width
    rw [heval]
    simp only [List.length_take]
    omega
  cases padding with
  | none => simp [padChar] at hc
  | space =>
    have hcc : c = ' ' := by simpa [padChar] using hc.symm
    subst hcc
    rw [padded_space_eq, hpw, heval]
    simp [exactly_n_digits_zero]
  | zero =>
    have hcc : c = '0' := by simpa [padChar] using hc.symm
    subst hcc
    rw [padded_zero_eq, hpw, heval]
    simp [exactly_n_digits_zero]

/-- Prefix monotonicity of `all` over `take`. -/
theorem all_take_le (l : Str) (p : Char → Bool) (j i : Nat) (hji : j ≤ i)
    (h : (l.take i).all p = true) : (l.take j).all p = true := by
  rw [show l.take j = (l.take i).take j by
    rw [List.take_take, Nat.min_eq_left hji]]
  rw [List.all_eq_true] at h ⊢
  intro x hx
  exact h x (List.take_subset _ _ hx)

/-!  Lemmas about the modifier split. -/

/-- A string without a colon has no colon index. -/
theorem colonIndex_of_not_mem (val : Str) (h : ':' ∉ val) :
    colonIndex val = none := by
  induction val with
  | nil => rfl
  | cons c rest ih =>
    simp only [List.mem_cons, not_or] at h
    obtain ⟨h1, h2⟩ := h
    simp only [colonIndex, if_neg (Ne.symm h1), ih h2, Option.map_none']

/-- The index of the first colon is the length of the colon-free prefix. -/
theorem colonIndex_split (key rest : Str) (h : ':' ∉ key) :
    colonIndex (key ++ ':' :: rest) = some key.length := by
  induction key with
  | nil => simp [colonIndex]
  | cons c cs ih =>
    simp only [List.mem_cons, not_or] at h
    obtain ⟨h1, h2⟩ := h
    simp only [List.cons_append, colonIndex, List.append_eq,
      if_neg (Ne.symm h1), ih h2, Option.map_some', List.length_cons]

/-- Taking up to the first colon recovers the key. -/
theorem take_before_colon (key rest : Str) :
    (key ++ ':' :: rest).take key.length = key :=
  List.take_left key (':' :: rest)

/-- Dropping past the first colon recovers the value. -/
theorem drop_after_colon (key rest : Str) :
    (key ++ ':' :: rest).drop (key.length + 1) = rest := by
  have h : key ++ ':' :: rest = (key ++ [':']) ++ rest := by simp
  rw [h, show key.length + 1 = (key ++ [':']).length by simp,
    List.drop_left]

/-!  Head shapes of a token stream, used to state the error claims. -/

/-- Whether the next token is a usable component name. -/
def headIsName : List Token → Bool
  | Token.componentPart ComponentKind.notWhitespace _ :: _ => true
  | _ => false

/-- Whether the next token is whitespace inside a component. -/
def headIsWhitespace : List Token → Bool
  | Token.componentPart ComponentKind.whitespace _ :: _ => true
  | _ => false

/-- Whether the next token is a closing bracket. -/
def headIsClosing : List Token → Bool
  | Token.bracket BracketKind.closing _ :: _ => true
  | _ => false

/-!  The claims. -/

/-- C1: for every combinator primitive (`string`, `first_string_of`,
`first_match`, `flat_map`, `n_to_m`, `exactly_n`, `n_to_m_digits`,
`exactly_n_digits`, `exactly_n_digits_padded`, `any_digit`, `ascii_char`)
and every input cursor state, if the combinator returns no match then the
cursor after the call equals the cursor before the call: no combinator
partially consumes input on failure. -/
theorem C1_atomicity :
    (∀ (expected input : Str), (string expected input).1 = none →
      (string expected input).2 = input) ∧
    (∀ (cands : List Str) (input : Str),
      (first_string_of cands input).1 = none →
      (first_string_of cands input).2 = input) ∧
    (∀ (T : Type) (options : List (Str × T)) (input : Str),
      (first_match options input).1 = none →
      (first_match options input).2.1 = input) ∧
    (∀ (T U : Type) (parser : Parser T) (map_fn : T → Option U)
      (input : Str), (flat_map parser map_fn input).1 = none →
      (flat_map parser map_fn input).2 = input) ∧
    (∀ (T : Type) (n m : Nat) (parser : Parser T) (input : Str),
      (n_to_m n m parser input).1 = none →
      (n_to_m n m parser input).2 = input) ∧
    (∀ (T : Type) (n : Nat) (parser : Parser T) (input : Str),
      (exactly_n n parser input).1 = none →
      (exactly_n n parser input).2 = input) ∧
    (∀ (ty : IntTy) (n m : Nat) (input : Str),
      (n_to_m_digits ty n m input).1 = none →
      (n_to_m_digits ty n m input).2 = input) ∧
    (∀ (ty : IntTy) (n : Nat) (input : Str),
      (exactly_n_digits ty n input).1 = none →
      (exactly_n_digits ty n input).2 = input) ∧
    (∀ (ty : IntTy) (n : Nat) (padding : Padding) (input : Str),
      (exactly_n_digits_padded ty n padding input).1 = none →
      (exactly_n_digits_padded ty n padding input).2 = input) ∧
    (∀ input : Str, (any_digit input).1 = none →
      (any_digit input).2 = input) ∧
    (∀ (char : Char) (input : Str), (ascii_char char input).1 = none →
      (ascii_char char input).2 = input) := by
  refine ⟨string_atomic, ?_, ?_, ?_, ?_, ?_, ?_, ?_, ?_,
    any_digit_atomic, ascii_char_atomic⟩
  · intro cands input h
    exact first_string_of_go_atomic cands input h
  · intro T options input h
    exact first_match_atomic options input h
  · intro T U parser map_fn input h
    exact lazy_mut_atomic _ input h
  · intro T n m parser input h
    exact lazy_mut_atomic _ input h
  · intro T n parser input h
    exact lazy_mut_atomic _ input h
  · intro ty n m input h
    exact lazy_mut_atomic _ input h
  · intro ty n input h
    exact lazy_mut_atomic _ input h
  · intro ty n padding input h
    exact lazy_mut_atomic _ input h

/-- Witness for C1: each primitive evaluated at a concrete failing input
leaves the cursor untouched. -/
theorem C1_atomicity_witness :
    (string ['a'] ['b']).2 = ['b'] ∧
    (first_string_of [['a'], ['c']] ['b']).2 = ['b'] ∧
    (first_match [(['a'], (0 : Nat))] ['b']).2.1 = ['b'] ∧
    (flat_map any_digit (fun _ => (none : Option Nat)) ['1']).2 = ['1'] ∧
    (n_to_m 1 2 any_digit ['a']).2 = ['a'] ∧
    (exactly_n 1 any_digit ['a']).2 = ['a'] ∧
    (n_to_m_digits ⟨255, false⟩ 1 1 ['a']).2 = ['a'] ∧
    (exactly_n_digits ⟨255, false⟩ 1 ['a']).2 = ['a'] ∧
    (exactly_n_digits_padded ⟨255, false⟩ 2 Padding.zero
      ['0', '0']).2 = ['0', '0'] ∧
    (any_digit ['a']).2 = ['a'] ∧
    (ascii_char 'x' ['y']).2 = ['y'] :=
  ⟨C1_atomicity.1 ['a'] ['b'] (by decide),
   C1_atomicity.2.1 [['a'], ['c']] ['b'] (by decide),
   C1_atomicity.2.2.1 Nat [(['a'], 0)] ['b'] (by decide),
   C1_atomicity.2.2.2.1 Char Nat any_digit (fun _ => none) ['1']
     (by decide),
   C1_atomicity.2.2.2.2.1 Char 1 2 any_digit ['a'] (by decide),
   C1_atomicity.2.2.2.2.2.1 Char 1 any_digit ['a'] (by decide),
   C1_atomicity.2.2.2.2.2.2.1 ⟨255, false⟩ 1 1 ['a'] (by decide),
   C1_atomicity.2.2.2.2.2.2.2.1 ⟨255, false⟩ 1 ['a'] (by decide),
   C1_atomicity.2.2.2.2.2.2.2.2.1 ⟨255, false⟩ 2 Padding.zero ['0', '0']
     (by decide),
   C1_atomicity.2.2.2.2.2.2.2.2.2.1 ['a'] (by decide),
   C1_atomicity.2.2.2.2.2.2.2.2.2.2 'x' ['y'] (by decide)⟩

/-- C2: for every `n ≤ m`, every sub-parser and every input on which
exactly `k` consecutive applications of the sub-parser succeed (the chain
`run_n` reaches `sk` after `k` steps and the parser fails at `sk`),
`n_to_m n m` fails consuming nothing when `k < n`, and when `k ≥ n` it
succeeds, its final cursor is the state after `min k m` applications, and
it returns exactly the substring those applications consumed.  The
sub-parser is assumed to satisfy the library's combinator contract: it
fails without consuming and on success leaves a suffix of its input. -/
theorem C2_n_to_m_repetition {T : Type} (n m k : Nat) (parser : Parser T)
    (input sk : Str) (hnm : n ≤ m)
    (hatom : ∀ s, (parser s).1 = none → (parser s).2 = s)
    (hsuf : ∀ s t s', parser s = (some t, s') → s' <:+ s)
    (hrun : run_n parser k input = some sk)
    (hfail : (parser sk).1 = none) :
    (k < n → n_to_m n m parser input = (none, input)) ∧
    (n ≤ k → ∃ rest, run_n parser (min k m) input = some rest ∧
      rest <:+ input ∧
      n_to_m n m parser input =
        (some (input.take (input.length - rest.length)), rest) ∧
      input = input.take (input.length - rest.length) ++ rest) := by
  constructor
  · intro hkn
    exact n_to_m_eval_none n m parser input
      (run_n_none_of_lt parser k n input sk hrun hfail hkn)
  · intro hnk
    have hk : k = n + (k - n) := by omega
    rw [hk, run_n_add] at hrun
    cases hsn : run_n parser n input with
    | none => rw [hsn] at hrun; simp at hrun
    | some sn =>
      rw [hsn] at hrun
      simp only [Option.some_bind] at hrun
      by_cases hmk : m ≤ k
      · have hmin : min k m = m := by omega
        obtain ⟨sj, hj1, hj2⟩ :=
          run_opt_of_le parser (m - n) (k - n) sn sk (by omega) hrun
        have hrunm : run_n parser m input = some sj := by
          have hm : m = n + (m - n) := by omega
          rw [hm, run_n_add, hsn]
          simpa using hj1
        have hsfx : sj <:+ input := run_n_suffix parser hsuf m input sj hrunm
        refine ⟨sj, by rw [hmin]; exact hrunm, hsfx, ?_,
          eq_take_append_of_suffix input sj hsfx⟩
        rw [n_to_m_eval_some n m parser input sn hsn, hj2]
      · have hmin : min k m = k := by omega
        have hopt : run_opt parser (m - n) sn = sk :=
          run_opt_of_ge parser hatom (k - n) (m - n) sn sk hrun hfail
            (by omega)
        have hrunk : run_n parser k input = some sk := by
          rw [hk, run_n_add, hsn]
          simpa using hrun
        have hsfx : sk <:+ input := run_n_suffix parser hsuf k input sk hrunk
        refine ⟨sk, by rw [hmin]; exact hrunk, hsfx, ?_,
          eq_take_append_of_suffix input sk hsfx⟩
        rw [n_to_m_eval_some n m parser input sn hsn, hopt]

/-- Witness for C2: `ascii_char 'a'` succeeds exactly three times on
`"aaa"`, so `n_to_m 1 2` consumes `min 3 2 = 2` characters. -/
theorem C2_n_to_m_repetition_witness :
    n_to_m 1 2 (ascii_char 'a') ['a', 'a', 'a'] =
      (some ['a', 'a'], ['a']) := by
  obtain ⟨-, h⟩ := C2_n_to_m_repetition 1 2 3 (ascii_char 'a')
    ['a', 'a', 'a'] [] (by omega)
    (ascii_char_atomic 'a') (ascii_char_suffix 'a')
    (by decide) (by decide)
  obtain ⟨rest, hr, -, hv, -⟩ := h (by omega)
  have hrest : rest = ['a'] := by
    have hc : run_n (ascii_char 'a') (min 3 2) ['a', 'a', 'a'] =
        some ['a'] := by decide
    rw [hc] at hr
    exact (Option.some.injEq _ _ ▸ hr.symm)
  subst hrest
  simpa using hv

/-- Evaluation of `exactly_n_digits` from its two stages. -/
theorem exactly_n_digits_eval (ty : IntTy) (n : Nat) (input run rest : Str)
    (v : Nat) (hrun : n_to_m n n any_digit input = (some run, rest))
    (hparse : parseIntTy ty run = some v) :
    exactly_n_digits ty n input = (some v, rest) :=
  flat_map_eval_some _ _ input rest run v hrun hparse

/-- C3: with `n = 4`, `exactly_n_digits_padded` yields 5 on `"0005"` under
`Zero` padding, 42 on `"  42"` under `Space` padding and 1234 on `"1234"`
under `None` padding (for any target type that can hold 1234); and under
each padding mode every input starting with more than `n` of that mode's
pad characters is rejected with the cursor unchanged, whatever follows
them (`None` padding has no pad character, so no input qualifies for it). -/
theorem C3_padding_equivalence (ty : IntTy) (hmax : 1234 ≤ ty.maxVal) :
    exactly_n_digits_padded ty 4 Padding.zero ['0', '0', '0', '5'] =
      (some 5, []) ∧
    exactly_n_digits_padded ty 4 Padding.space [' ', ' ', '4', '2'] =
      (some 42, []) ∧
    exactly_n_digits_padded ty 4 Padding.none ['1', '2', '3', '4'] =
      (some 1234, []) ∧
    (∀ (padding : Padding) (c : Char) (input : Str),
      padChar padding = some c → 4 + 1 ≤ input.length →
      (input.take (4 + 1)).all (fun x => x = c) = true →
      exactly_n_digits_padded ty 4 padding input = (none, input)) := by
  refine ⟨?_, ?_, ?_, ?_⟩
  · rw [padded_zero_eq,
      show pad_width 4 '0' ['0', '0', '0', '5'] = 3 from rfl,
      show (n_to_m 0 4 (ascii_char '0') ['0', '0', '0', '5']).2 = ['5']
        from rfl,
      show (4 : Nat) - 3 = 1 from rfl,
      exactly_n_digits_eval ty 1 ['5'] ['5'] [] 5 rfl
        (parseIntTy_some ty ['5'] (by decide) (by decide)
          (le_trans (by decide) hmax) (Or.inl (by decide)))]
  · rw [padded_space_eq,
      show pad_width 4 ' ' [' ', ' ', '4', '2'] = 2 from rfl,
      show (n_to_m 0 4 (ascii_char ' ') [' ', ' ', '4', '2']).2 =
        ['4', '2'] from rfl,
      show (4 : Nat) - 2 = 2 from rfl,
      exactly_n_digits_eval ty 2 ['4', '2'] ['4', '2'] [] 42 rfl
        (parseIntTy_some ty ['4', '2'] (by decide) (by decide)
          (le_trans (by decide) hmax) (Or.inl (by decide)))]
  · rw [padded_none_eq,
      show n_to_m_digits ty 1 4 ['1', '2', '3', '4'] = (some 1234, []) from
        flat_map_eval_some _ _ ['1', '2', '3', '4'] [] ['1', '2', '3', '4']
          1234 rfl
          (parseIntTy_some ty ['1', '2', '3', '4'] (by decide) (by decide)
            (le_trans (by decide) hmax) (Or.inl (by decide)))]
  · intro padding c input hc hlen hall
    exact padded_all_pad_reject ty 4 padding c input hc (by omega)
      (all_take_le input _ 4 (4 + 1) (by omega) hall)

/-- Witness for C3: all four parts at concrete inputs, with `u16` as the
target type. -/
theorem C3_padding_equivalence_witness :
    exactly_n_digits_padded ⟨65535, false⟩ 4 Padding.zero
      ['0', '0', '0', '5'] = (some 5, []) ∧
    exactly_n_digits_padded ⟨65535, false⟩ 4 Padding.space
      [' ', ' ', '4', '2'] = (some 42, []) ∧
    exactly_n_digits_padded ⟨65535, false⟩ 4 Padding.none
      ['1', '2', '3', '4'] = (some 1234, []) ∧
    exactly_n_digits_padded ⟨65535, false⟩ 4 Padding.zero
      ['0', '0', '0', '0', '0'] =
      (none, ['0', '0', '0', '0', '0']) := by
  obtain ⟨h1, h2, h3, h4⟩ :=
    C3_padding_equivalence ⟨65535, false⟩ (by norm_num)
  exact ⟨h1, h2, h3,
    h4 Padding.zero '0' ['0', '0', '0', '0', '0'] rfl (by norm_num)
      (by decide)⟩

/-- C9: for every `n ≥ 1` and every target integer type,
`exactly_n_digits_padded n Zero` returns no match, leaving the cursor
unchanged, on any input whose first `n` characters are all `'0'`: the pad
run consumes all `n` zeros, zero digits remain required, and the empty
digit run fails integer conversion.  The analogous statement holds for
`Space` padding on an input whose first `n` characters are all spaces. -/
theorem C9_all_pad_consumed (ty : IntTy) (n : Nat) (input : Str)
    (_hn : 1 ≤ n) (hlen : n ≤ input.length) :
    ((input.take n).all (fun c => c = '0') = true →
      exactly_n_digits_padded ty n Padding.zero input = (none, input)) ∧
    ((input.take n).all (fun c => c = ' ') = true →
      exactly_n_digits_padded ty n Padding.space input = (none, input)) := by
  refine ⟨fun hall => ?_, fun hall => ?_⟩
  · exact padded_all_pad_reject ty n Padding.zero '0' input rfl hlen hall
  · exact padded_all_pad_reject ty n Padding.space ' ' input rfl hlen hall

/-- Witness for C9: `"0000"` (and `"    "`) with `n = 4` are rejected with
the cursor unchanged. -/
theorem C9_all_pad_consumed_witness :
    exactly_n_digits_padded ⟨255, false⟩ 4 Padding.zero
      ['0', '0', '0', '0'] = (none, ['0', '0', '0', '0']) ∧
    exactly_n_digits_padded ⟨255, false⟩ 4 Padding.space
      [' ', ' ', ' ', ' '] = (none, [' ', ' ', ' ', ' ']) :=
  ⟨(C9_all_pad_consumed ⟨255, false⟩ 4 ['0', '0', '0', '0'] (by norm_num)
      (by norm_num)).1 (by decide),
   (C9_all_pad_consumed ⟨255, false⟩ 4 [' ', ' ', ' ', ' '] (by norm_num)
      (by norm_num)).2 (by decide)⟩

/-- C10: `exactly_n_digits_padded` never panics: for every padding mode the
pad run's width is at most `n` (so the source's `u8` subtraction
`n - pad_width` cannot underflow), and on every input the function totally
returns either a value or no match with the cursor unchanged. -/
theorem C10_padded_no_panic (ty : IntTy) (n : Nat) (padding : Padding)
    (input : Str) :
    (∀ c : Char, pad_width n c input ≤ n) ∧
    ((∃ v rest, exactly_n_digits_padded ty n padding input =
        (some v, rest)) ∨
      exactly_n_digits_padded ty n padding input = (none, input)) := by
  constructor
  · intro c
    unfold pad_width
    rw [n_to_m_eval_some 0 n (ascii_char c) input input rfl]
    simp only [List.length_take]
    have := run_opt_ascii_length c (n - 0) input
    omega
  · cases h : exactly_n_digits_padded ty n padding input with
    | mk r rest =>
      cases r with
      | some v => exact Or.inl ⟨v, rest, rfl⟩
      | none =>
        refine Or.inr ?_
        have h1 : (exactly_n_digits_padded ty n padding input).1 = none := by
          rw [h]
        have h2 : (exactly_n_digits_padded ty n padding input).2 = input :=
          lazy_mut_atomic _ input h1
        rw [h] at h2
        simp at h2
        rw [h2]

/-- C4 counterexample: the claim says every accepted modifier token
contains exactly one colon, but the source splits at the *first* colon
(`position`), so the token `"a:b:c"` — which contains two colons — is
accepted as a modifier with key `"a"` and value `"b:c"`: `parse_component`
on the token stream of `"[foo a:b:c]"` succeeds. -/
theorem C4_exactly_one_colon_counterexample :
    parse_component 4 ⟨1, 1, 0⟩
      [Token.componentPart ComponentKind.notWhitespace
        ⟨['f', 'o', 'o'], ⟨⟨1, 2, 1⟩, ⟨1, 4, 3⟩⟩⟩,
       Token.componentPart ComponentKind.whitespace
        ⟨[' '], ⟨⟨1, 5, 4⟩, ⟨1, 5, 4⟩⟩⟩,
       Token.componentPart ComponentKind.notWhitespace
        ⟨['a', ':', 'b', ':', 'c'], ⟨⟨1, 6, 5⟩, ⟨1, 10, 9⟩⟩⟩,
       Token.bracket BracketKind.closing ⟨1, 11, 10⟩] =
      Except.ok (Item.component ⟨1, 1, 0⟩ none
        ⟨['f', 'o', 'o'], ⟨⟨1, 2, 1⟩, ⟨1, 4, 3⟩⟩⟩
        [⟨⟨[' '], ⟨⟨1, 5, 4⟩, ⟨1, 5, 4⟩⟩⟩,
          ⟨['a'], ⟨⟨1, 6, 5⟩, ⟨1, 6, 5⟩⟩⟩, ⟨1, 7, 6⟩,
          ⟨['b', ':', 'c'], ⟨⟨1, 8, 7⟩, ⟨1, 10, 9⟩⟩⟩⟩]
        none ⟨1, 11, 10⟩, []) ∧
    ['a', ':', 'b', ':', 'c'].count ':' = 2 :=
  ⟨rfl, rfl⟩

/-- C4 (amended): every modifier token the AST builder accepts contains at
least one colon; the key is the bytes before the *first* colon and the
value the bytes after it.  A token with no colon fails with
`InvalidModifier` carrying the offending text; an empty key or an empty
value fails with `InvalidModifier` carrying the empty string (anchored at
the start, resp. the end, of the token's span). -/
theorem C4_modifier_first_colon_split (whitespace : Spanned Str)
    (value : Str) (span : Span) (rest2 : List Token)
    (acc : List Modifier) :
    (':' ∉ value →
      parse_modifiers
        (Token.componentPart ComponentKind.whitespace whitespace ::
          Token.componentPart ComponentKind.notWhitespace ⟨value, span⟩ ::
          rest2) acc =
      Except.error (ParseError.invalidModifier value span.start.byte)) ∧
    (∀ post, value = ':' :: post →
      parse_modifiers
        (Token.componentPart ComponentKind.whitespace whitespace ::
          Token.componentPart ComponentKind.notWhitespace ⟨value, span⟩ ::
          rest2) acc =
      Except.error (ParseError.invalidModifier [] span.start.byte)) ∧
    (∀ key, key ≠ [] → ':' ∉ key → value = key ++ [':'] →
      parse_modifiers
        (Token.componentPart ComponentKind.whitespace whitespace ::
          Token.componentPart ComponentKind.notWhitespace ⟨value, span⟩ ::
          rest2) acc =
      Except.error (ParseError.invalidModifier [] span.endLoc.byte)) ∧
    (∀ key val2, key ≠ [] → val2 ≠ [] → ':' ∉ key →
      value = key ++ ':' :: val2 →
      parse_modifiers
        (Token.componentPart ComponentKind.whitespace whitespace ::
          Token.componentPart ComponentKind.notWhitespace ⟨value, span⟩ ::
          rest2) acc =
      parse_modifiers rest2 (acc ++
        [⟨whitespace, ⟨key, span.shrink_to_before key.length⟩,
          span.start.offset key.length,
          ⟨val2, span.shrink_to_after key.length⟩⟩])) := by
  refine ⟨?_, ?_, ?_, ?_⟩
  · intro h
    simp only [parse_modifiers, colonIndex_of_not_mem value h]
  · intro post h
    subst h
    rfl
  · intro key hk hnc hv
    subst hv
    simp only [parse_modifiers, colonIndex_split key [] hnc,
      take_before_colon key [], drop_after_colon key [], if_neg hk,
      if_pos rfl]
    rfl
  · intro key val2 hk hval hnc hv
    subst hv
    simp only [parse_modifiers, colonIndex_split key val2 hnc,
      take_before_colon key val2, drop_after_colon key val2, if_neg hk,
      if_neg hval]

/-- Witness for C4 (amended): the four behaviours at concrete tokens —
`"bar"` (no colon), `":x"` (empty key), `"k:"` (empty value) and
`"a:b:c"` (accepted, split at the first colon). -/
theorem C4_modifier_first_colon_split_witness :
    parse_modifiers
      [Token.componentPart ComponentKind.whitespace
        ⟨[' '], ⟨⟨1, 5, 4⟩, ⟨1, 5, 4⟩⟩⟩,
       Token.componentPart ComponentKind.notWhitespace
        ⟨['b', 'a', 'r'], ⟨⟨1, 6, 5⟩, ⟨1, 8, 7⟩⟩⟩] [] =
      Except.error (ParseError.invalidModifier ['b', 'a', 'r'] 5) ∧
    parse_modifiers
      [Token.componentPart ComponentKind.whitespace
        ⟨[' '], ⟨⟨1, 5, 4⟩, ⟨1, 5, 4⟩⟩⟩,
       Token.componentPart ComponentKind.notWhitespace
        ⟨[':', 'x'], ⟨⟨1, 6, 5⟩, ⟨1, 7, 6⟩⟩⟩] [] =
      Except.error (ParseError.invalidModifier [] 5) ∧
    parse_modifiers
      [Token.componentPart ComponentKind.whitespace
        ⟨[' '], ⟨⟨1, 5, 4⟩, ⟨1, 5, 4⟩⟩⟩,
       Token.componentPart ComponentKind.notWhitespace
        ⟨['k', ':'], ⟨⟨1, 6, 5⟩, ⟨1, 7, 6⟩⟩⟩] [] =
      Except.error (ParseError.invalidModifier [] 6) ∧
    parse_modifiers
      [Token.componentPart ComponentKind.whitespace
        ⟨[' '], ⟨⟨1, 5, 4⟩, ⟨1, 5, 4⟩⟩⟩,
       Token.componentPart ComponentKind.notWhitespace
        ⟨['a', ':', 'b', ':', 'c'], ⟨⟨1, 6, 5⟩, ⟨1, 10, 9⟩⟩⟩] [] =
      Except.ok
        ([⟨⟨[' '], ⟨⟨1, 5, 4⟩, ⟨1, 5, 4⟩⟩⟩,
           ⟨['a'], ⟨⟨1, 6, 5⟩, ⟨1, 6, 5⟩⟩⟩, ⟨1, 7, 6⟩,
           ⟨['b', ':', 'c'], ⟨⟨1, 8, 7⟩, ⟨1, 10, 9⟩⟩⟩⟩], none, []) :=
  ⟨(C4_modifier_first_colon_split ⟨[' '], ⟨⟨1, 5, 4⟩, ⟨1, 5, 4⟩⟩⟩
      ['b', 'a', 'r'] ⟨⟨1, 6, 5⟩, ⟨1, 8, 7⟩⟩ [] []).1 (by decide),
   (C4_modifier_first_colon_split ⟨[' '], ⟨⟨1, 5, 4⟩, ⟨1, 5, 4⟩⟩⟩
      [':', 'x'] ⟨⟨1, 6, 5⟩, ⟨1, 7, 6⟩⟩ [] []).2.1 ['x'] rfl,
   (C4_modifier_first_colon_split ⟨[' '], ⟨⟨1, 5, 4⟩, ⟨1, 5, 4⟩⟩⟩
      ['k', ':'] ⟨⟨1, 6, 5⟩, ⟨1, 7, 6⟩⟩ [] []).2.2.1 ['k'] (by decide)
      (by decide) rfl,
   (C4_modifier_first_colon_split ⟨[' '], ⟨⟨1, 5, 4⟩, ⟨1, 5, 4⟩⟩⟩
      ['a', ':', 'b', ':', 'c'] ⟨⟨1, 6, 5⟩, ⟨1, 10, 9⟩⟩ [] []).2.2.2
      ['a'] ['b', ':', 'c'] (by decide) (by decide) (by decide) rfl⟩

/-- C5 counterexample: on the token stream of `"[]"` the AST builder
reports `MissingComponentName` at byte index 0 (the opening bracket's
zero-based position), not at index 1 as the claim states. -/
theorem C5_index_counterexample :
    parse_ast (lex ['[', ']']) =
      Except.error (ParseError.missingComponentName 0) ∧
    parse_ast (lex ['[', ']']) ≠
      Except.error (ParseError.missingComponentName 1) := by
  refine ⟨rfl, ?_⟩
  intro h
  rw [show parse_ast (lex ['[', ']']) =
    Except.error (ParseError.missingComponentName 0) from rfl] at h
  simp at h

/-- C5 (amended): parsing `"[]"` fails with `MissingComponentName` at byte
index 0; in general, when the component name is absent the error is
anchored at the leading whitespace's span if one was consumed, else at a
zero-width span at the opening bracket. -/
theorem C5_missing_component_name :
    (∀ (fuel : Nat) (openingBracket : Location) (w : Spanned Str)
        (ts : List Token), headIsName ts = false →
      parse_component (fuel + 2) openingBracket
        (Token.componentPart ComponentKind.whitespace w :: ts) =
      Except.error (ParseError.missingComponentName w.span.start.byte)) ∧
    (∀ (fuel : Nat) (openingBracket : Location) (ts : List Token),
      headIsWhitespace ts = false → headIsName ts = false →
      parse_component (fuel + 2) openingBracket ts =
      Except.error
        (ParseError.missingComponentName openingBracket.byte)) ∧
    parse_ast (lex ['[', ']']) =
      Except.error (ParseError.missingComponentName 0) := by
  refine ⟨?_, ?_, rfl⟩
  · intro fuel openingBracket w ts h
    cases ts with
    | nil => rfl
    | cons t ts' =>
      cases t with
      | literal v => rfl
      | bracket kind loc => rfl
      | componentPart kind v =>
        cases kind with
        | whitespace => rfl
        | notWhitespace => simp [headIsName] at h
  · intro fuel openingBracket ts hw h
    cases ts with
    | nil => rfl
    | cons t ts' =>
      cases t with
      | literal v => rfl
      | bracket kind loc => rfl
      | componentPart kind v =>
        cases kind with
        | whitespace => simp [headIsWhitespace] at hw
        | notWhitespace => simp [headIsName] at h

/-- Witness for C5 (amended): both anchoring rules at concrete tokens. -/
theorem C5_missing_component_name_witness :
    parse_component 2 ⟨1, 1, 0⟩
      [Token.componentPart ComponentKind.whitespace
        ⟨[' '], ⟨⟨1, 2, 1⟩, ⟨1, 2, 1⟩⟩⟩] =
      Except.error (ParseError.missingComponentName 1) ∧
    parse_component 2 ⟨1, 1, 0⟩ [] =
      Except.error (ParseError.missingComponentName 0) :=
  ⟨C5_missing_component_name.1 0 ⟨1, 1, 0⟩
      ⟨[' '], ⟨⟨1, 2, 1⟩, ⟨1, 2, 1⟩⟩⟩ [] rfl,
   C5_missing_component_name.2.1 0 ⟨1, 1, 0⟩ [] rfl rfl⟩

/-- C6: whenever a bracket is opened but never closed before the tokens
end, the AST builder fails with `UnclosedOpeningBracket` carrying the byte
index of that opening bracket: for a component it is the original opening
bracket (whatever the modifier loop consumed), for an `optional` group it
is the original opening bracket (not the nested group's), for an
unterminated nested group it is the nested group's own opening bracket;
and parsing `"[foo"` yields `UnclosedOpeningBracket` with index 0. -/
theorem C6_unclosed_opening_bracket :
    (∀ (fuel : Nat) (openingBracket : Location) (name : Spanned Str)
        (rest rest2 : List Token) (modifiers : List Modifier)
        (tw : Option (Spanned Str)),
      name.value ≠ optionalKeyword →
      parse_modifiers rest [] = Except.ok (modifiers, tw, rest2) →
      headIsClosing rest2 = false →
      parse_component (fuel + 2) openingBracket
        (Token.componentPart ComponentKind.notWhitespace name :: rest) =
      Except.error
        (ParseError.unclosedOpeningBracket openingBracket.byte)) ∧
    (∀ (fuel : Nat) (openingBracket : Location) (nameSpan : Span)
        (ws : Spanned Str) (ts rest : List Token)
        (nested : NestedFormatDescription),
      parse_nested fuel ws.span.endLoc ts = Except.ok (nested, rest) →
      headIsClosing rest = false →
      parse_component (fuel + 2) openingBracket
        (Token.componentPart ComponentKind.notWhitespace
            ⟨optionalKeyword, nameSpan⟩ ::
          Token.componentPart ComponentKind.whitespace ws :: ts) =
      Except.error
        (ParseError.unclosedOpeningBracket openingBracket.byte)) ∧
    (∀ (fuel : Nat) (lastLocation location : Location) (ts : List Token)
        (items : List Item),
      parse_nested_items fuel ts [] = Except.ok (items, []) →
      parse_nested (fuel + 1) lastLocation
        (Token.bracket BracketKind.opening location :: ts) =
      Except.error (ParseError.unclosedOpeningBracket location.byte)) ∧
    parse_ast (lex ['[', 'f', 'o', 'o']) =
      Except.error (ParseError.unclosedOpeningBracket 0) := by
  refine ⟨?_, ?_, ?_, rfl⟩
  · intro fuel openingBracket name rest rest2 modifiers tw hname hmods
      hclosing
    simp only [parse_component, parse_component_named, if_neg hname,
      hmods]
    cases rest2 with
    | nil => rfl
    | cons t ts' =>
      cases t with
      | literal v => rfl
      | componentPart kind v => rfl
      | bracket kind loc =>
        cases kind with
        | opening => rfl
        | closing => simp [headIsClosing] at hclosing
  · intro fuel openingBracket nameSpan ws ts rest nested hnested hclosing
    simp only [parse_component, parse_component_named, if_pos rfl,
      hnested]
    cases rest with
    | nil => rfl
    | cons t ts' =>
      cases t with
      | literal v => rfl
      | componentPart kind v => rfl
      | bracket kind loc =>
        cases kind with
        | opening => rfl
        | closing => simp [headIsClosing] at hclosing
  · intro fuel lastLocation location ts items hitems
    simp only [parse_nested, hitems]

/-- Witness for C6: the three unclosed-bracket anchors at concrete token
streams. -/
theorem C6_unclosed_opening_bracket_witness :
    parse_component 2 ⟨1, 1, 0⟩
      [Token.componentPart ComponentKind.notWhitespace
        ⟨['f', 'o', 'o'], ⟨⟨1, 2, 1⟩, ⟨1, 4, 3⟩⟩⟩] =
      Except.error (ParseError.unclosedOpeningBracket 0) ∧
    parse_component 4 ⟨1, 1, 0⟩
      [Token.componentPart ComponentKind.notWhitespace
        ⟨['o', 'p', 't', 'i', 'o', 'n', 'a', 'l'],
          ⟨⟨1, 2, 1⟩, ⟨1, 9, 8⟩⟩⟩,
       Token.componentPart ComponentKind.whitespace
        ⟨[' '], ⟨⟨1, 10, 9⟩, ⟨1, 10, 9⟩⟩⟩,
       Token.bracket BracketKind.opening ⟨1, 11, 10⟩,
       Token.bracket BracketKind.closing ⟨1, 12, 11⟩] =
      Except.error (ParseError.unclosedOpeningBracket 0) ∧
    parse_nested 2 ⟨1, 10, 9⟩
      [Token.bracket BracketKind.opening ⟨1, 11, 10⟩] =
      Except.error (ParseError.unclosedOpeningBracket 10) :=
  ⟨C6_unclosed_opening_bracket.1 0 ⟨1, 1, 0⟩
      ⟨['f', 'o', 'o'], ⟨⟨1, 2, 1⟩, ⟨1, 4, 3⟩⟩⟩ [] [] [] none
      (by decide) rfl rfl,
   C6_unclosed_opening_bracket.2.1 2 ⟨1, 1, 0⟩ ⟨⟨1, 2, 1⟩, ⟨1, 9, 8⟩⟩
      ⟨[' '], ⟨⟨1, 10, 9⟩, ⟨1, 10, 9⟩⟩⟩
      [Token.bracket BracketKind.opening ⟨1, 11, 10⟩,
       Token.bracket BracketKind.closing ⟨1, 12, 11⟩] []
      (NestedFormatDescription.mk ⟨1, 11, 10⟩ [] ⟨1, 12, 11⟩ none) rfl
      rfl,
   C6_unclosed_opening_bracket.2.2.1 1 ⟨1, 10, 9⟩ ⟨1, 11, 10⟩ [] [] rfl⟩

/-- C7: an opening bracket immediately followed by another opening bracket
(as produced from `"[["`) yields a single `EscapedBracket` item carrying
both bracket locations — not a `Component` — with parsing continuing after
the pair. -/
theorem C7_escaped_bracket :
    (∀ (fuel : Nat) (loc1 loc2 : Location) (ts : List Token),
      parse_items (fuel + 1)
        (Token.bracket BracketKind.opening loc1 ::
          Token.bracket BracketKind.opening loc2 :: ts) =
      match parse_items fuel ts with
      | Except.error e => Except.error e
      | Except.ok items =>
        Except.ok (Item.escapedBracket loc1 loc2 :: items)) ∧
    parse_ast (lex ['[', '[']) =
      Except.ok [Item.escapedBracket ⟨1, 1, 0⟩ ⟨1, 2, 1⟩] :=
  ⟨fun _ _ _ _ => rfl, rfl⟩

/-- C8 counterexample: the closure returned by `first_match` is not a pure
function of the cursor and its construction parameters — built over
`[("a", 0), ("a", 1)]`, its first call on cursor `"a"` returns 0 while the
second call on the very same cursor returns 1, because the first call
consumed part of the captured iterator. -/
theorem C8_purity_counterexample :
    (first_match [(['a'], (0 : Nat)), (['a'], 1)] ['a']).1 = some 0 ∧
    (first_match
        ((first_match [(['a'], (0 : Nat)), (['a'], 1)] ['a']).2.2)
        ['a']).1 = some 1 ∧
    some (0 : Nat) ≠ some 1 := by
  refine ⟨rfl, rfl, by decide⟩

/-- C8 (amended): every primitive except `first_match` is a pure function
of the cursor and its construction parameters (each is embedded as such a
function); `first_match`'s closure mutably consumes its candidate
iterator, so each call is a pure function of the cursor and the *remaining*
candidates only: a failed call leaves the cursor unchanged but exhausts
the iterator, after which every later call fails, and a successful call
leaves exactly the candidates after the first match. -/
theorem C8_first_match_iterator (T : Type) (options : List (Str × T))
    (input : Str) :
    ((first_match options input).1 = none →
      (first_match options input).2.2 = [] ∧
      (first_match options input).2.1 = input) ∧
    (∀ input2 : Str, (first_match options input).1 = none →
      (first_match ((first_match options input).2.2) input2).1 = none) ∧
    (∀ t : T, (first_match options input).1 = some t →
      ∃ pre expected, options =
        pre ++ (expected, t) :: (first_match options input).2.2) := by
  have hexhaust : (first_match options input).1 = none →
      (first_match options input).2.2 = [] := by
    intro h
    induction options generalizing input with
    | nil => rfl
    | cons o rest ih =>
      obtain ⟨expected, t⟩ := o
      simp only [first_match] at h ⊢
      cases hs : string expected input with
      | mk r s =>
        cases r with
        | some v => simp [hs] at h ⊢
        | none =>
          simp only [hs] at h ⊢
          exact ih s h
  refine ⟨fun h => ⟨hexhaust h, first_match_atomic options input h⟩,
    fun input2 h => ?_, fun t h => ?_⟩
  · rw [hexhaust h]
    rfl
  · clear hexhaust
    induction options generalizing input with
    | nil => simp [first_match] at h
    | cons o rest ih =>
      obtain ⟨expected, t'⟩ := o
      simp only [first_match] at h ⊢
      cases hs : string expected input with
      | mk r s =>
        cases r with
        | some v =>
          simp only [hs, Option.some.injEq] at h ⊢
          exact ⟨[], expected, by rw [h]; simp⟩
        | none =>
          simp only [hs] at h ⊢
          obtain ⟨pre, e2, hsplit⟩ := ih s h
          exact ⟨(expected, t') :: pre, e2,
            by rw [List.cons_append]; exact congrArg _ hsplit⟩

/-- Witness for C8 (amended): the three behaviours at concrete calls. -/
theorem C8_first_match_iterator_witness :
    ((first_match [(['a'], (7 : Nat))] ['b']).2.2 = [] ∧
      (first_match [(['a'], (7 : Nat))] ['b']).2.1 = ['b']) ∧
    (first_match ((first_match [(['a'], (7 : Nat))] ['b']).2.2)
      ['a']).1 = none ∧
    (∃ pre expected, [(['a'], (5 : Nat))] =
      pre ++ (expected, 5) ::
        (first_match [(['a'], (5 : Nat))] ['a']).2.2) :=
  ⟨(C8_first_match_iterator Nat [(['a'], 7)] ['b']).1 (by decide),
   (C8_first_match_iterator Nat [(['a'], 7)] ['b']).2.1 ['a']
     (by decide),
   (C8_first_match_iterator Nat [(['a'], 5)] ['a']).2.2 5 (by decide)⟩

end Time
